import Mathlib

/-!
Shallow embedding of `dinner.py`: a brute-force maximum-independent-set
("dinner invitation") library.  Guests are strings; the input graph is a
Python dict from guest to list of disliked guests, modelled as an
association list in insertion order.  Python sets are modelled as
duplicate-free lists in insertion order.
-/

namespace Dinner

abbrev Guest := String

/-- A Python dict `{guest: [disliked, ...]}` in insertion order. -/
abbrev Friends := List (Guest × List Guest)

/-- Default value used for in-range list indexing (never actually returned). -/
def defaultGuest : Guest := ""

/-- Embedding of `find_dislikes`: for each person (in dict order) and each
listed dislike, add the pair `(person, dislike)` to the edge set unless its
reverse is already present; set insertion is modelled as append-if-absent. -/
def find_dislikes (friends : Friends) : List (Guest × Guest) :=
  friends.foldl
    (fun dislikes pd =>
      pd.2.foldl
        (fun ds dislike =>
          if (dislike, pd.1) ∈ ds then ds
          else if (pd.1, dislike) ∈ ds then ds
          else ds ++ [(pd.1, dislike)])
        dislikes)
    []

/-- Inner loop of `generate_all_subsets`: starting from `num = i`, repeatedly
divide by two, prepending `friend_list[n-1-j]` when the `j`-th remainder is
one. -/
def subset_of_bits (friend_list : List Guest) (n : Nat) (i : Nat) : List Guest :=
  ((List.range n).foldl
    (fun (st : List Guest × Nat) j =>
      (if st.2 % 2 = 1 then friend_list.getD (n - 1 - j) defaultGuest :: st.1 else st.1,
       st.2 / 2))
    ([], i)).1

/-- Embedding of `generate_all_subsets`: one subset per `i < 2^n`, decoded
from the binary representation of `i`. -/
def generate_all_subsets (friends : Friends) : List (List Guest) :=
  let friend_list := friends.map Prod.fst
  let n := friends.length
  (List.range (2 ^ n)).map (subset_of_bits friend_list n)

/-- Embedding of `filter_bad_invites`: collect one copy of each subset per
violated edge into `bad_invites`, then repeatedly `remove` (erase the first
occurrence of) each collected subset from `good_invites`, which aliases
`all_subsets`. -/
def filter_bad_invites (all_subsets : List (List Guest)) (friends : Friends) :
    List (List Guest) :=
  let good_invites := all_subsets
  let bad_invites :=
    all_subsets.foldl
      (fun bad s =>
        (find_dislikes friends).foldl
          (fun bad2 pair => if pair.1 ∈ s ∧ pair.2 ∈ s then bad2 ++ [s] else bad2)
          bad)
      []
  bad_invites.foldl (fun good s => if s ∈ good then good.erase s else good) good_invites

/-- Embedding of a call `filter_bad_invites(all_subsets, friends)` with its
state effects: the result triple is (return value, post-call contents of the
caller's `all_subsets` list, post-call contents of `friends`).  In Python
`good_invites = all_subsets` aliases the argument and `remove` mutates it in
place, so after the call the argument holds exactly the returned list, while
`friends` is only ever read. -/
def filter_bad_invites_call (all_subsets : List (List Guest)) (friends : Friends) :
    List (List Guest) × List (List Guest) × Friends :=
  (filter_bad_invites all_subsets friends, filter_bad_invites all_subsets friends, friends)

/-- Embedding of `filter_no_dislikes`: a guest whose own dislike list is empty
goes to the isolated list, every other entry is copied to the reduced dict. -/
def filter_no_dislikes (friends : Friends) : List Guest × Friends :=
  friends.foldl
    (fun (acc : List Guest × Friends) item =>
      if item.2 = [] then (acc.1 ++ [item.1], acc.2) else (acc.1, acc.2 ++ [item]))
    ([], [])

/-- Embedding of the selection loop shared by `invite_to_dinner` and
`invite_to_dinner_optimized`: keep the first subset strictly longer than the
current best. -/
def select_invite (good_subsets : List (List Guest)) : List Guest :=
  good_subsets.foldl
    (fun invite_list potential_subset =>
      if invite_list.length < potential_subset.length then potential_subset else invite_list)
    []

/-- Embedding of `invite_to_dinner`. -/
def invite_to_dinner (friends : Friends) : List Guest :=
  let all_subsets := generate_all_subsets friends
  let good_subsets := filter_bad_invites all_subsets friends
  select_invite good_subsets

/-- Embedding of `invite_to_dinner_optimized`. -/
def invite_to_dinner_optimized (friends : Friends) : List Guest :=
  let better := filter_no_dislikes friends
  let bad_subsets := generate_all_subsets better.2
  let good_subsets := filter_bad_invites bad_subsets friends
  select_invite good_subsets ++ better.1

/-- Tests whether some dislike edge has both endpoints in `s`. -/
def hasDislikePair (friends : Friends) (s : List Guest) : Bool :=
  (find_dislikes friends).any (fun pair => decide (pair.1 ∈ s ∧ pair.2 ∈ s))

/-- The subset encoded by the bits of `i`, in the enumeration order of
`generate_all_subsets`: bit `j` of `i` (counting from the least significant
bit) includes guest `n-1-j`, and the resulting guests are listed by
ascending key position. -/
def bitOrderSubset (fl : List Guest) (i : Nat) : List Guest :=
  ((List.range fl.length).filterMap
    (fun j => if i.testBit j then some (fl.getD (fl.length - 1 - j) defaultGuest) else none)).reverse



/-! ### Generic fold lemmas -/

theorem foldl_induction {α β : Type} (f : α → β → α) (l : List β) (init : α)
    (P : α → Prop) (h0 : P init) (hstep : ∀ a b, b ∈ l → P a → P (f a b)) :
    P (l.foldl f init) := by
  induction l generalizing init with
  | nil => exact h0
  | cons b t ih =>
    exact ih (f init b) (hstep init b (by simp) h0)
      (fun a c hc ha => hstep a c (by simp [hc]) ha)

/-! ### Invariants of `find_dislikes` -/

/-- The edge accumulator never holds a duplicate tuple, and never holds both
orientations of a pair of distinct guests. -/
def EdgeInv (ds : List (Guest × Guest)) : Prop :=
  ds.Nodup ∧ ∀ a b, (a, b) ∈ ds → a ≠ b → (b, a) ∉ ds

theorem edgeInv_insert (ds : List (Guest × Guest)) (p d : Guest) (h : EdgeInv ds) :
    EdgeInv (if (d, p) ∈ ds then ds
             else if (p, d) ∈ ds then ds
             else ds ++ [(p, d)]) := by
  by_cases h1 : (d, p) ∈ ds
  · simpa [h1] using h
  · by_cases h2 : (p, d) ∈ ds
    · simpa [h1, h2] using h
    · simp only [h1, h2, if_false]
      constructor
      · rw [List.nodup_append]
        refine ⟨h.1, List.nodup_singleton _, ?_⟩
        intro x hx hx'
        simp only [List.mem_singleton] at hx'
        exact h2 (hx' ▸ hx)
      · intro a b hab hne hba
        rcases List.mem_append.1 hab with hab' | hab'
        · rcases List.mem_append.1 hba with hba' | hba'
          · exact h.2 a b hab' hne hba'
          · simp only [List.mem_singleton, Prod.mk.injEq] at hba'
            exact h1 (hba'.1 ▸ hba'.2 ▸ hab')
        · simp only [List.mem_singleton, Prod.mk.injEq] at hab'
          rcases List.mem_append.1 hba with hba' | hba'
          · exact h1 (hab'.1 ▸ hab'.2 ▸ hba')
          · simp only [List.mem_singleton, Prod.mk.injEq] at hba'
            exact hne (hab'.2 ▸ hba'.2)

theorem find_dislikes_edgeInv (friends : Friends) : EdgeInv (find_dislikes friends) := by
  unfold find_dislikes
  refine foldl_induction _ _ _ EdgeInv ⟨List.nodup_nil, by simp⟩ ?_
  intro ds pd _ hds
  exact foldl_induction _ _ _ EdgeInv hds (fun ds' d _ h' => edgeInv_insert ds' pd.1 d h')

theorem find_dislikes_provenance (friends : Friends) :
    ∀ e ∈ find_dislikes friends, ∃ l, (e.1, l) ∈ friends ∧ e.2 ∈ l := by
  unfold find_dislikes
  refine foldl_induction _ _ _
    (fun ds : List (Guest × Guest) => ∀ e ∈ ds, ∃ l, (e.1, l) ∈ friends ∧ e.2 ∈ l)
    (by simp) ?_
  intro ds pd hpd hds
  refine foldl_induction _ _ _
    (fun ds' : List (Guest × Guest) => ∀ e ∈ ds', ∃ l, (e.1, l) ∈ friends ∧ e.2 ∈ l)
    hds ?_
  intro ds' d hd h' e he
  by_cases h1 : (d, pd.1) ∈ ds'
  · exact h' e (by simpa [h1] using he)
  · by_cases h2 : (pd.1, d) ∈ ds'
    · exact h' e (by simpa [h1, h2] using he)
    · simp only [h1, h2, if_false] at he
      rcases List.mem_append.1 he with he' | he'
      · exact h' e he'
      · simp only [List.mem_singleton] at he'
        subst he'
        exact ⟨pd.2, by simpa using hpd, hd⟩
/-! ### Claim C3 -/

/-- C3 counterexample: on the input `{"Bob": ["Alice"]}` the returned edge is
`("Bob", "Alice")`, which is not in alphabetical order, and its second
endpoint `"Alice"` is not a key of the mapping; so the claim that every tuple
of `find_dislikes` is sorted with both endpoints present as keys is false. -/
theorem find_dislikes_claim_cex :
    ("Bob", "Alice") ∈ find_dislikes [("Bob", ["Alice"])] ∧
    ¬ (("Bob" : Guest) < "Alice") ∧
    "Alice" ∉ ([("Bob", ["Alice"])] : Friends).map Prod.fst := by
  refine ⟨by decide, ?_, by decide⟩
  rw [String.lt_iff_toList_lt]
  decide

/-- C3 (amended): `find_dislikes` contains each unordered pair at most once —
the result list has no duplicate tuple and never both orientations of a pair
of distinct guests — and every returned edge `(a, b)` arises from an entry
`(a, l)` of the mapping with `b` listed in `l` (so the first endpoint is a
key; tuples need not be alphabetically sorted and the second endpoint need
not be a key). -/
theorem find_dislikes_spec (friends : Friends) :
    (find_dislikes friends).Nodup ∧
    (∀ a b, (a, b) ∈ find_dislikes friends → a ≠ b → (b, a) ∉ find_dislikes friends) ∧
    (∀ e ∈ find_dislikes friends, ∃ l, (e.1, l) ∈ friends ∧ e.2 ∈ l) :=
  ⟨(find_dislikes_edgeInv friends).1, (find_dislikes_edgeInv friends).2,
    find_dislikes_provenance friends⟩

/-- Witness for C3 at a concrete symmetric graph: the reverse of the stored
edge `("Alice", "Bob")` is indeed absent. -/
theorem find_dislikes_spec_witness :
    ("Bob", "Alice") ∉ find_dislikes [("Alice", ["Bob"]), ("Bob", ["Alice"])] :=
  (find_dislikes_spec [("Alice", ["Bob"]), ("Bob", ["Alice"])]).2.1 ("Alice") ("Bob")
    (by decide) (by decide)

/-! ### Claims C1 and C2 (code bugs) -/

/-- C2 (code bug evaluation): on `{"A": [], "B": ["A"]}` the guest `"A"`
appears in the dislike list of `"B"`, yet `filter_no_dislikes` classifies
`"A"` as isolated because only a guest's own list is inspected. -/
theorem filter_no_dislikes_bug :
    filter_no_dislikes [("A", []), ("B", ["A"])] = (["A"], [("B", ["A"])]) ∧
    ("B", ["A"]) ∈ ([("A", []), ("B", ["A"])] : Friends) ∧
    "A" ∈ (["A"] : List Guest) := by decide

/-- C1 (code bug evaluation): on `{"A": [], "B": ["A"]}` the naive selector
returns `["B"]` (length 1) while the optimized selector returns
`["B", "A"]` (length 2), which contains both endpoints of the dislike edge
`("B", "A")`; so the two variants neither agree in cardinality nor both
return valid lists. -/
theorem invite_equivalence_bug :
    invite_to_dinner [("A", []), ("B", ["A"])] = ["B"] ∧
    invite_to_dinner_optimized [("A", []), ("B", ["A"])] = ["B", "A"] ∧
    ("B", "A") ∈ find_dislikes [("A", []), ("B", ["A"])] ∧
    "B" ∈ invite_to_dinner_optimized [("A", []), ("B", ["A"])] ∧
    "A" ∈ invite_to_dinner_optimized [("A", []), ("B", ["A"])] := by decide

/-! ### Characterization of `generate_all_subsets` -/

/-- Reference recursion for the subset-decoding loop: bits of `num` are
consumed least-significant first along `js`, and chosen guests are prepended,
so guests chosen later end up in front. -/
def selAux (g : Nat → Guest) : List Nat → Nat → List Guest
  | [], _ => []
  | j :: js, num => selAux g js (num / 2) ++ (if num % 2 = 1 then [g j] else [])

theorem selAux_foldl (g : Nat → Guest) :
    ∀ (js : List Nat) (s : List Guest) (num : Nat),
      ((js.foldl (fun (st : List Guest × Nat) j =>
          (if st.2 % 2 = 1 then g j :: st.1 else st.1, st.2 / 2)) (s, num)).1)
        = selAux g js num ++ s := by
  intro js
  induction js with
  | nil => intro s num; simp [selAux]
  | cons j js ih =>
    intro s num
    simp only [List.foldl_cons, selAux]
    rw [ih]
    by_cases h : num % 2 = 1 <;> simp [h, List.append_assoc]

theorem selAux_map_succ (g : Nat → Guest) :
    ∀ (js : List Nat) (num : Nat),
      selAux g (js.map Nat.succ) num = selAux (fun j => g (j + 1)) js num := by
  intro js
  induction js with
  | nil => intro num; simp [selAux]
  | cons j js ih => intro num; simp [selAux, ih]

theorem selAux_range : ∀ (n : Nat) (g : Nat → Guest) (i : Nat),
    selAux g (List.range n) i
      = ((List.range n).filterMap
          (fun j => if i.testBit j then some (g j) else none)).reverse := by
  intro n
  induction n with
  | zero => intro g i; simp [selAux]
  | succ n ih =>
    intro g i
    rw [List.range_succ_eq_map]
    simp only [selAux, selAux_map_succ, ih, List.filterMap_cons, List.filterMap_map]
    rcases Nat.mod_two_eq_zero_or_one i with h | h
    · have hb : i.testBit 0 = false := by simp [Nat.testBit_zero, h]
      simp only [h, hb]
      simp only [if_neg (by omega : ¬ (0 : Nat) = 1), List.append_nil]
      rw [show List.filterMap
          ((fun j => if i.testBit j = true then some (g j) else none) ∘ Nat.succ)
          (List.range n)
          = List.filterMap
            (fun j => if (i / 2).testBit j = true then some (g (j + 1)) else none)
            (List.range n) from
        List.filterMap_congr (fun j _ => by simp [Function.comp, Nat.testBit_succ])]
      simp
    · have hb : i.testBit 0 = true := by simp [Nat.testBit_zero, h]
      simp only [h, hb, if_pos trivial, List.reverse_cons]
      rw [show List.filterMap
          ((fun j => if i.testBit j = true then some (g j) else none) ∘ Nat.succ)
          (List.range n)
          = List.filterMap
            (fun j => if (i / 2).testBit j = true then some (g (j + 1)) else none)
            (List.range n) from
        List.filterMap_congr (fun j _ => by simp [Function.comp, Nat.testBit_succ])]

theorem subset_of_bits_eq (fl : List Guest) (n : Nat) (i : Nat) :
    subset_of_bits fl n i
      = ((List.range n).filterMap
          (fun j => if i.testBit j then some (fl.getD (n - 1 - j) defaultGuest) else none)).reverse := by
  have h := selAux_foldl (fun j => fl.getD (n - 1 - j) defaultGuest) (List.range n) [] i
  rw [List.append_nil] at h
  rw [← selAux_range]
  exact h

theorem generate_all_subsets_eq (friends : Friends) :
    generate_all_subsets friends
      = (List.range (2 ^ friends.length)).map (bitOrderSubset (friends.map Prod.fst)) := by
  unfold generate_all_subsets bitOrderSubset
  refine List.map_congr_left ?_
  intro i _
  rw [subset_of_bits_eq]
  simp [List.length_map]

theorem reverse_filterMap_range {α : Type} (f : Nat → Option α) :
    ∀ n : Nat, (List.filterMap f (List.range n)).reverse
      = (List.range n).filterMap (fun j => f (n - 1 - j)) := by
  intro n
  induction n with
  | zero => simp
  | succ n ih =>
    have hL : (List.filterMap f (List.range (n + 1))).reverse
        = (List.filterMap f [n]).reverse
          ++ (List.range n).filterMap (fun j => f (n - 1 - j)) := by
      rw [List.range_succ, List.filterMap_append, List.reverse_append, ih]
    have hR : (List.range (n + 1)).filterMap (fun j => f (n + 1 - 1 - j))
        = (List.filterMap f [n]).reverse
          ++ (List.range n).filterMap (fun j => f (n - 1 - j)) := by
      rw [show (List.range (n + 1)).filterMap (fun j => f (n + 1 - 1 - j))
          = (List.range (n + 1)).filterMap (fun j => f (n - j)) from
        List.filterMap_congr (fun j _ => rfl)]
      rw [List.range_succ_eq_map, List.filterMap_cons, List.filterMap_map]
      rw [show List.filterMap ((fun j => f (n - j)) ∘ Nat.succ) (List.range n)
          = (List.range n).filterMap (fun j => f (n - 1 - j)) from
        List.filterMap_congr (fun j _ => by simp only [Function.comp]; congr 1; omega)]
      cases hf : f n <;> simp [hf]
    rw [hL, hR]

theorem map_getD_range {α : Type} (d : α) :
    ∀ l : List α, (List.range l.length).map (fun k => l.getD k d) = l := by
  intro l
  induction l with
  | nil => simp
  | cons a t ih =>
    rw [List.length_cons, List.range_succ_eq_map, List.map_cons, List.map_map]
    rw [show ((fun k => (a :: t).getD k d) ∘ Nat.succ) = fun k => t.getD k d from
      funext (fun k => List.getD_cons_succ)]
    rw [ih]
    rfl

theorem filterMap_some_eq_map {α β : Type} (h : α → β) :
    ∀ l : List α, l.filterMap (fun a => some (h a)) = l.map h := by
  intro l
  induction l with
  | nil => simp
  | cons a t ih => simp [ih]

/-- Ascending-index form of `bitOrderSubset`: guest `k` is listed (in key
order) exactly when bit `n - 1 - k` of `i` is set. -/
def ascSubset (fl : List Guest) (i : Nat) : List Guest :=
  (List.range fl.length).filterMap
    (fun k => if i.testBit (fl.length - 1 - k) then some (fl.getD k defaultGuest) else none)

theorem bitOrderSubset_eq_asc (fl : List Guest) (i : Nat) :
    bitOrderSubset fl i = ascSubset fl i := by
  unfold bitOrderSubset ascSubset
  rw [reverse_filterMap_range]
  refine List.filterMap_congr ?_
  intro k hk
  rw [List.mem_range] at hk
  by_cases hb : i.testBit (fl.length - 1 - k) = true <;>
    simp [hb, show fl.length - 1 - (fl.length - 1 - k) = k by omega]

theorem filterMap_guard_sublist {α β : Type} (p : α → Bool) (h : α → β) :
    ∀ l : List α, (l.filterMap (fun a => if p a then some (h a) else none)).Sublist (l.map h) := by
  intro l
  induction l with
  | nil => simp
  | cons a t ih =>
    rw [List.map_cons, List.filterMap_cons]
    by_cases hp : p a = true
    · simpa [hp] using ih.cons₂ (h a)
    · simpa [hp] using ih.cons (h a)

theorem ascSubset_sublist (fl : List Guest) (i : Nat) : (ascSubset fl i).Sublist fl := by
  have h := filterMap_guard_sublist (fun k => i.testBit (fl.length - 1 - k))
    (fun k => fl.getD k defaultGuest) (List.range fl.length)
  rw [map_getD_range] at h
  exact h

theorem mem_ascSubset (fl : List Guest) (hnd : fl.Nodup) (i : Nat) (k : Nat)
    (hk : k < fl.length) :
    fl.getD k defaultGuest ∈ ascSubset fl i ↔ i.testBit (fl.length - 1 - k) = true := by
  unfold ascSubset
  rw [List.mem_filterMap]
  constructor
  · rintro ⟨k2, hk2, hsome⟩
    rw [List.mem_range] at hk2
    by_cases hb : i.testBit (fl.length - 1 - k2) = true
    · rw [if_pos hb] at hsome
      have heq : fl.getD k2 defaultGuest = fl.getD k defaultGuest := by
        injection hsome
      rw [List.getD_eq_getElem fl defaultGuest hk2,
        List.getD_eq_getElem fl defaultGuest hk] at heq
      have hkk : k2 = k := (hnd.getElem_inj_iff).1 heq
      subst hkk
      exact hb
    · simp [hb] at hsome
  · intro hb
    exact ⟨k, List.mem_range.2 hk, by simp [hb]⟩

theorem ascSubset_inj (fl : List Guest) (hnd : fl.Nodup) (i1 i2 : Nat)
    (h1 : i1 < 2 ^ fl.length) (h2 : i2 < 2 ^ fl.length)
    (heq : ascSubset fl i1 = ascSubset fl i2) : i1 = i2 := by
  refine Nat.eq_of_testBit_eq (fun j => ?_)
  by_cases hj : j < fl.length
  · have hk : fl.length - 1 - j < fl.length := by omega
    have e1 := mem_ascSubset fl hnd i1 (fl.length - 1 - j) hk
    have e2 := mem_ascSubset fl hnd i2 (fl.length - 1 - j) hk
    rw [heq] at e1
    rw [show fl.length - 1 - (fl.length - 1 - j) = j by omega] at e1 e2
    by_cases b1 : i1.testBit j = true <;> by_cases b2 : i2.testBit j = true <;> simp_all
  · have hle : 2 ^ fl.length ≤ 2 ^ j :=
      Nat.pow_le_pow_right (by omega) (by omega)
    rw [Nat.testBit_lt_two_pow (lt_of_lt_of_le h1 hle),
      Nat.testBit_lt_two_pow (lt_of_lt_of_le h2 hle)]

theorem bitOrderSubset_zero (fl : List Guest) : bitOrderSubset fl 0 = [] := by
  unfold bitOrderSubset
  simp [Nat.zero_testBit]

theorem bitOrderSubset_all (fl : List Guest) :
    bitOrderSubset fl (2 ^ fl.length - 1) = fl := by
  rw [bitOrderSubset_eq_asc]
  unfold ascSubset
  refine Eq.trans (List.filterMap_congr (g := fun k => some (fl.getD k defaultGuest)) ?_) ?_
  · intro k hk
    rw [List.mem_range] at hk
    rw [Nat.testBit_two_pow_sub_one]
    simp [show fl.length - 1 - k < fl.length by omega]
  · exact (filterMap_some_eq_map (fun k => fl.getD k defaultGuest)
      (List.range fl.length)).trans (map_getD_range defaultGuest fl)

/-! ### Claim C4 -/

/-- Claim C4: for a mapping whose `N` keys are distinct,
`generate_all_subsets` returns exactly `2^N` pairwise-distinct subsets of
the key set, including the empty subset and the full key list, and the
`i`-th subset is the one decoded from the binary representation of `i`
(bit `j` of `i` selects guest `N-1-j`), as described by `bitOrderSubset`. -/
theorem generate_all_subsets_spec (friends : Friends)
    (hnd : (friends.map Prod.fst).Nodup) :
    (generate_all_subsets friends).length = 2 ^ friends.length ∧
    (generate_all_subsets friends).Nodup ∧
    (∀ s ∈ generate_all_subsets friends, ∀ x ∈ s, x ∈ friends.map Prod.fst) ∧
    [] ∈ generate_all_subsets friends ∧
    friends.map Prod.fst ∈ generate_all_subsets friends ∧
    (∀ i (h : i < (generate_all_subsets friends).length),
      (generate_all_subsets friends).get ⟨i, h⟩
        = bitOrderSubset (friends.map Prod.fst) i) := by
  have hfl : (friends.map Prod.fst).length = friends.length := List.length_map _ _
  refine ⟨?_, ?_, ?_, ?_, ?_, ?_⟩
  · rw [generate_all_subsets_eq]
    simp
  · rw [generate_all_subsets_eq]
    refine List.Nodup.map_on ?_ (List.nodup_range _)
    intro i1 hi1 i2 hi2 heq
    rw [List.mem_range] at hi1 hi2
    rw [bitOrderSubset_eq_asc, bitOrderSubset_eq_asc] at heq
    exact ascSubset_inj _ hnd i1 i2 (by rw [hfl]; exact hi1) (by rw [hfl]; exact hi2) heq
  · intro s hs x hx
    rw [generate_all_subsets_eq] at hs
    rcases List.mem_map.1 hs with ⟨i, _, rfl⟩
    rw [bitOrderSubset_eq_asc] at hx
    exact (ascSubset_sublist _ i).subset hx
  · rw [generate_all_subsets_eq]
    exact List.mem_map.2 ⟨0, List.mem_range.2 (Nat.pos_pow_of_pos _ (by omega)),
      bitOrderSubset_zero _⟩
  · rw [generate_all_subsets_eq]
    refine List.mem_map.2 ⟨2 ^ friends.length - 1, List.mem_range.2 ?_, ?_⟩
    · have hpos : 0 < 2 ^ friends.length := Nat.pos_pow_of_pos _ (by omega)
      omega
    · rw [← hfl, bitOrderSubset_all]
  · intro i h
    rw [List.get_of_eq (generate_all_subsets_eq friends)]
    simp [List.get_eq_getElem]

/-- Witness for C4 at the three-guest example graph. -/
theorem generate_all_subsets_spec_witness :
    (generate_all_subsets
      [("Alice", ["Bob"]), ("Bob", ["Alice", "Eve"]), ("Eve", ["Bob"])]).length = 2 ^ 3 ∧
    [] ∈ generate_all_subsets
      [("Alice", ["Bob"]), ("Bob", ["Alice", "Eve"]), ("Eve", ["Bob"])] :=
  ⟨(generate_all_subsets_spec _ (by decide)).1,
    (generate_all_subsets_spec _ (by decide)).2.2.2.1⟩

/-! ### Characterization of `filter_bad_invites` -/

/-- The `bad_invites` list built by the first double loop of
`filter_bad_invites`. -/
def bad_invites_list (all_subsets : List (List Guest)) (friends : Friends) :
    List (List Guest) :=
  all_subsets.foldl
    (fun bad s =>
      (find_dislikes friends).foldl
        (fun bad2 pair => if pair.1 ∈ s ∧ pair.2 ∈ s then bad2 ++ [s] else bad2)
        bad)
    []

/-- Number of dislike edges violated by the subset `s`. -/
def badCount (friends : Friends) (s : List Guest) : Nat :=
  (find_dislikes friends).countP (fun e => decide (e.1 ∈ s ∧ e.2 ∈ s))

theorem foldl_guard_append {α β : Type} (C : β → Prop) [DecidablePred C] (s : α) :
    ∀ (es : List β) (acc : List α),
      es.foldl (fun a e => if C e then a ++ [s] else a) acc
        = acc ++ List.replicate (es.countP (fun e => decide (C e))) s := by
  intro es
  induction es with
  | nil => intro acc; simp
  | cons e es ih =>
    intro acc
    rw [List.foldl_cons, List.countP_cons]
    by_cases h : C e
    · rw [if_pos h, ih, if_pos (by simpa using h)]
      rw [List.replicate_succ, List.append_assoc, List.singleton_append]
    · rw [if_neg h, ih, if_neg (by simpa using h)]
      simp

theorem inner_bad_fold (friends : Friends) (s : List Guest) (acc : List (List Guest)) :
    (find_dislikes friends).foldl
      (fun bad2 pair => if pair.1 ∈ s ∧ pair.2 ∈ s then bad2 ++ [s] else bad2) acc
      = acc ++ List.replicate (badCount friends s) s := by
  have h := foldl_guard_append (fun pair : Guest × Guest => pair.1 ∈ s ∧ pair.2 ∈ s) s
    (find_dislikes friends) acc
  exact h

theorem bad_invites_count_aux (friends : Friends) (v : List Guest) :
    ∀ (A : List (List Guest)) (acc : List (List Guest)),
      ((A.foldl
        (fun bad s =>
          (find_dislikes friends).foldl
            (fun bad2 pair => if pair.1 ∈ s ∧ pair.2 ∈ s then bad2 ++ [s] else bad2)
            bad)
        acc).count v)
      = acc.count v + A.count v * badCount friends v := by
  intro A
  induction A with
  | nil => intro acc; simp
  | cons s A ih =>
    intro acc
    rw [List.foldl_cons, ih, inner_bad_fold, List.count_append, List.count_replicate,
      List.count_cons]
    by_cases hv : s = v
    · subst hv
      rw [if_pos (by simp), if_pos (by simp)]
      ring
    · rw [if_neg (by simpa using hv), if_neg (by simpa using hv)]
      ring

theorem bad_invites_count (A : List (List Guest)) (friends : Friends) (v : List Guest) :
    (bad_invites_list A friends).count v = A.count v * badCount friends v := by
  have h := bad_invites_count_aux friends v A []
  simpa using h

theorem mem_bad_invites (A : List (List Guest)) (friends : Friends) (v : List Guest) :
    v ∈ bad_invites_list A friends ↔ (v ∈ A ∧ 0 < badCount friends v) := by
  rw [← List.count_pos_iff, bad_invites_count, ← List.count_pos_iff (a := v) (l := A)]
  rw [Nat.pos_iff_ne_zero, Nat.pos_iff_ne_zero, Nat.pos_iff_ne_zero, Nat.mul_ne_zero_iff]

theorem erase_filter_of_pred_false (b : List Guest) (p : List Guest → Bool)
    (hb : p b = false) :
    ∀ L : List (List Guest), (L.erase b).filter p = L.filter p := by
  intro L
  induction L with
  | nil => simp
  | cons a L ih =>
    rw [List.erase_cons]
    by_cases hab : (a == b) = true
    · have ha : a = b := eq_of_beq hab
      subst ha
      rw [if_pos hab, List.filter_cons, hb]
      simp
    · rw [if_neg hab, List.filter_cons, List.filter_cons]
      cases hpa : p a <;> simp [hpa, ih]

theorem foldl_erase_eq_filter :
    ∀ (B L : List (List Guest)), (∀ v ∈ B, L.count v ≤ B.count v) →
      B.foldl (fun good s => if s ∈ good then good.erase s else good) L
        = L.filter (fun x => decide (x ∉ B)) := by
  intro B
  induction B with
  | nil =>
    intro L h
    simp
  | cons b B ih =>
    intro L hcnt
    rw [List.foldl_cons]
    by_cases hbL : b ∈ L
    · rw [if_pos hbL]
      have hyp : ∀ v ∈ B, (L.erase b).count v ≤ B.count v := by
        intro v hv
        by_cases hvb : v = b
        · subst hvb
          rw [List.count_erase_self]
          have h1 := hcnt v (by simp)
          rw [List.count_cons_self] at h1
          omega
        · rw [List.count_erase_of_ne hvb]
          have h1 := hcnt v (List.mem_cons_of_mem b hv)
          rwa [List.count_cons_of_ne hvb] at h1
      rw [ih (L.erase b) hyp]
      have hq : (fun x : List Guest => decide (x ∉ b :: B)) b = false := by simp
      rw [← erase_filter_of_pred_false b _ hq L]
      refine List.filter_congr ?_
      intro x hx
      by_cases hxb : x = b
      · subst hxb
        have hxB : x ∈ B := by
          have h1 := hcnt x (by simp)
          rw [List.count_cons_self] at h1
          have h2 : 0 < (L.erase x).count x := List.count_pos_iff.2 hx
          rw [List.count_erase_self] at h2
          have h3 : 0 < B.count x := by omega
          exact List.count_pos_iff.1 h3
        simp [hxB]
      · simp [hxb]
    · rw [if_neg hbL]
      have hyp : ∀ v ∈ B, L.count v ≤ B.count v := by
        intro v hv
        by_cases hvb : v = b
        · subst hvb
          rw [List.count_eq_zero.2 hbL]
          exact Nat.zero_le _
        · have h1 := hcnt v (List.mem_cons_of_mem b hv)
          rwa [List.count_cons_of_ne hvb] at h1
      rw [ih L hyp]
      refine List.filter_congr ?_
      intro x hx
      have hxb : x ≠ b := fun he => hbL (he ▸ hx)
      simp [hxb]

theorem hasDislikePair_iff_badCount (friends : Friends) (s : List Guest) :
    hasDislikePair friends s = true ↔ 0 < badCount friends s := by
  unfold hasDislikePair badCount
  rw [List.any_eq_true, List.countP_pos_iff]

/-- The returned value of `filter_bad_invites` is the order-preserving
filter of the input keeping exactly the subsets violating no dislike edge. -/
theorem filter_bad_invites_eq_filter (A : List (List Guest)) (friends : Friends) :
    filter_bad_invites A friends = A.filter (fun s => !hasDislikePair friends s) := by
  have hcnt : ∀ v ∈ bad_invites_list A friends,
      A.count v ≤ (bad_invites_list A friends).count v := by
    intro v hv
    rw [bad_invites_count]
    have h1 : 1 ≤ badCount friends v := ((mem_bad_invites A friends v).1 hv).2
    calc A.count v = A.count v * 1 := (Nat.mul_one _).symm
    _ ≤ A.count v * badCount friends v := Nat.mul_le_mul_left _ h1
  have h := foldl_erase_eq_filter (bad_invites_list A friends) A hcnt
  refine Eq.trans h ?_
  refine List.filter_congr ?_
  intro x hx
  by_cases hbad : hasDislikePair friends x = true
  · have hc := (hasDislikePair_iff_badCount friends x).1 hbad
    have hxB : x ∈ bad_invites_list A friends := (mem_bad_invites A friends x).2 ⟨hx, hc⟩
    simp [hxB, hbad]
  · have hb2 : ¬ 0 < badCount friends x :=
      fun h2 => hbad ((hasDislikePair_iff_badCount friends x).2 h2)
    have hxB : x ∉ bad_invites_list A friends :=
      fun hin => hb2 ((mem_bad_invites A friends x).1 hin).2
    simp [hxB, Bool.eq_false_iff.2 hbad]

/-! ### Claim C5 -/

/-- Claim C5 counterexample: with the self-loop graph `{"A": ["A"]}` the code
derives the degenerate edge `("A", "A")`, whose two (equal) endpoints both
lie in the singleton subset `["A"]`, so this size-one subset is removed:
the clause "every subset of size 0 or 1 is always kept" is false. -/
theorem filter_bad_invites_claim_cex :
    (["A"] : List Guest).length ≤ 1 ∧
    ["A"] ∈ ([["A"]] : List (List Guest)) ∧
    filter_bad_invites [["A"]] [("A", ["A"])] = [] ∧
    ["A"] ∉ filter_bad_invites [["A"]] [("A", ["A"])] := by decide

/-- Claim C5 (amended): `filter_bad_invites` returns exactly those input
subsets that contain no dislike edge of `find_dislikes friends` (both
endpoints present), preserving the relative order of the input; every subset
of size 0 is always kept, and subsets of size 1 are also kept provided no
guest lists themself among their own dislikes (self-loops produce degenerate
edges that remove singletons). -/
theorem filter_bad_invites_spec (A : List (List Guest)) (friends : Friends) :
    filter_bad_invites A friends = A.filter (fun s => !hasDislikePair friends s) ∧
    ((∀ pd ∈ friends, pd.1 ∉ pd.2) →
      ∀ s ∈ A, s.length ≤ 1 → s ∈ filter_bad_invites A friends) := by
  refine ⟨filter_bad_invites_eq_filter A friends, ?_⟩
  intro hirr s hs hlen
  rw [filter_bad_invites_eq_filter]
  refine List.mem_filter.2 ⟨hs, ?_⟩
  have hno : ∀ e ∈ find_dislikes friends, ¬ (e.1 ∈ s ∧ e.2 ∈ s) := by
    rintro e he ⟨h1, h2⟩
    rcases find_dislikes_provenance friends e he with ⟨l, hel, he2⟩
    have hne : e.1 ≠ e.2 := by
      intro hEq
      exact hirr (e.1, l) hel (hEq ▸ he2)
    cases s with
    | nil => exact (List.not_mem_nil e.1) h1
    | cons a t =>
      cases t with
      | nil =>
        rw [List.mem_singleton] at h1 h2
        exact hne (h1.trans h2.symm)
      | cons b t2 => simp at hlen
  have hfalse : hasDislikePair friends s = false := by
    unfold hasDislikePair
    rw [List.any_eq_false]
    intro e he
    simpa using hno e he
  simp [hfalse]

/-- Witness for C5 at a self-loop-free input: the singleton subset survives. -/
theorem filter_bad_invites_spec_witness :
    ["A"] ∈ filter_bad_invites [["A"]] [("A", ["B"])] :=
  (filter_bad_invites_spec [["A"]] [("A", ["B"])]).2 (by decide) ["A"] (by decide)
    (by decide)

/-! ### Claim C7 -/

/-- Claim C7 counterexample: after the call
`filter_bad_invites([["A","B"]], {"A": ["B"], "B": ["A"]})` the caller's
`all_subsets` list — aliased by `good_invites` and mutated by `remove` —
no longer holds its original contents. -/
theorem filter_bad_invites_frame_cex :
    (filter_bad_invites_call [["A", "B"]] [("A", ["B"]), ("B", ["A"])]).2.1
      ≠ [["A", "B"]] := by decide

/-- Claim C7 (amended): `filter_bad_invites` mutates its `all_subsets`
argument in place: after the call the argument holds exactly the returned
list, namely the valid filter of its original contents, while the `friends`
argument is left unchanged. -/
theorem filter_bad_invites_frame_spec (A : List (List Guest)) (friends : Friends) :
    (filter_bad_invites_call A friends).2.1 = (filter_bad_invites_call A friends).1 ∧
    (filter_bad_invites_call A friends).2.1
      = A.filter (fun s => !hasDislikePair friends s) ∧
    (filter_bad_invites_call A friends).2.2 = friends :=
  ⟨rfl, filter_bad_invites_eq_filter A friends, rfl⟩

/-! ### Characterization of the selection loop -/

theorem select_foldl_spec :
    ∀ (l : List (List Guest)) (b : List Guest),
      (l.foldl (fun best s => if best.length < s.length then s else best) b = b ∧
        ∀ s ∈ l, s.length ≤ b.length) ∨
      (∃ i, ∃ h : i < l.length,
        l.foldl (fun best s => if best.length < s.length then s else best) b
          = l.get ⟨i, h⟩ ∧
        b.length < (l.get ⟨i, h⟩).length ∧
        (∀ j (hj : j < l.length), j < i → (l.get ⟨j, hj⟩).length < (l.get ⟨i, h⟩).length) ∧
        (∀ j (hj : j < l.length), (l.get ⟨j, hj⟩).length ≤ (l.get ⟨i, h⟩).length)) := by
  intro l
  induction l with
  | nil =>
    intro b
    left
    exact ⟨rfl, by simp⟩
  | cons s t ih =>
    intro b
    rw [List.foldl_cons]
    by_cases hs : b.length < s.length
    · rw [if_pos hs]
      right
      rcases ih s with ⟨heq, hall⟩ | ⟨i, h, heq, hlt, hfirst, hmax⟩
      · refine ⟨0, by simp, ?_, ?_, ?_, ?_⟩
        · exact heq
        · exact hs
        · intro j hj hji
          omega
        · intro j hj
          rcases j with _ | j
          · exact Nat.le_refl _
          · rw [List.get_cons_succ]
            exact hall _ (List.get_mem t j _)
      · refine ⟨i + 1, by simpa using h, ?_, ?_, ?_, ?_⟩
        · rw [List.get_cons_succ]
          exact heq
        · rw [List.get_cons_succ]
          exact Nat.lt_trans hs hlt
        · intro j hj hji
          rcases j with _ | j
          · rw [List.get_cons_succ]
            exact hlt
          · rw [List.get_cons_succ, List.get_cons_succ]
            exact hfirst j (by simpa using hj) (by omega)
        · intro j hj
          rcases j with _ | j
          · rw [List.get_cons_succ]
            exact Nat.le_of_lt hlt
          · rw [List.get_cons_succ, List.get_cons_succ]
            exact hmax j (by simpa using hj)
    · rw [if_neg hs]
      rcases ih b with ⟨heq, hall⟩ | ⟨i, h, heq, hlt, hfirst, hmax⟩
      · left
        refine ⟨heq, ?_⟩
        intro x hx
        rcases List.mem_cons.1 hx with rfl | hx1
        · omega
        · exact hall x hx1
      · right
        refine ⟨i + 1, by simpa using h, ?_, ?_, ?_, ?_⟩
        · rw [List.get_cons_succ]
          exact heq
        · rw [List.get_cons_succ]
          exact hlt
        · intro j hj hji
          rcases j with _ | j
          · rw [List.get_cons_succ]
            show s.length < (t.get ⟨i, h⟩).length
            omega
          · rw [List.get_cons_succ, List.get_cons_succ]
            exact hfirst j (by simpa using hj) (by omega)
        · intro j hj
          rcases j with _ | j
          · rw [List.get_cons_succ]
            show s.length ≤ (t.get ⟨i, h⟩).length
            omega
          · rw [List.get_cons_succ, List.get_cons_succ]
            exact hmax j (by simpa using hj)

/-- On a nonempty list, the selection loop returns the first entry attaining
the maximum length: strictly longer than every earlier entry and at least as
long as every entry. -/
theorem select_invite_spec (l : List (List Guest)) (hne : l ≠ []) :
    ∃ i, ∃ h : i < l.length,
      select_invite l = l.get ⟨i, h⟩ ∧
      (∀ j (hj : j < l.length), j < i → (l.get ⟨j, hj⟩).length < (l.get ⟨i, h⟩).length) ∧
      (∀ j (hj : j < l.length), (l.get ⟨j, hj⟩).length ≤ (l.get ⟨i, h⟩).length) := by
  rcases select_foldl_spec l [] with ⟨heq, hall⟩ | ⟨i, h, heq, _, hfirst, hmax⟩
  · have hpos : 0 < l.length := List.length_pos.2 hne
    refine ⟨0, hpos, ?_, ?_, ?_⟩
    · have h0 : (l.get ⟨0, hpos⟩).length = 0 := Nat.le_zero.1 (by
        simpa using hall _ (List.get_mem l 0 hpos))
      rw [List.length_eq_zero.1 h0]
      exact heq
    · intro j hj hji
      omega
    · intro j hj
      have hj0 := hall _ (List.get_mem l j hj)
      simp only [List.length_nil, Nat.le_zero] at hj0
      omega
  · exact ⟨i, h, heq, hfirst, hmax⟩

/-- The selection loop returns `[]` or an element of its input. -/
theorem select_invite_mem (l : List (List Guest)) :
    select_invite l = [] ∨ select_invite l ∈ l := by
  rcases select_foldl_spec l [] with ⟨heq, _⟩ | ⟨i, h, heq, _, _, _⟩
  · exact Or.inl heq
  · refine Or.inr ?_
    have he2 : select_invite l = l.get ⟨i, h⟩ := heq
    rw [he2]
    exact List.get_mem l i h

theorem nil_mem_generate (friends : Friends) : [] ∈ generate_all_subsets friends := by
  rw [generate_all_subsets_eq]
  exact List.mem_map.2 ⟨0, List.mem_range.2 (Nat.pos_pow_of_pos _ (by omega)),
    bitOrderSubset_zero _⟩

theorem nil_mem_filter_bad (A : List (List Guest)) (friends : Friends) (h : [] ∈ A) :
    [] ∈ filter_bad_invites A friends := by
  rw [filter_bad_invites_eq_filter]
  refine List.mem_filter.2 ⟨h, ?_⟩
  have hfalse : hasDislikePair friends [] = false := by
    unfold hasDislikePair
    rw [List.any_eq_false]
    intro e he
    simp
  simp [hfalse]

/-! ### Claim C6 -/

/-- Claim C6 counterexample: on `{"A": [], "B": []}` the valid subsets in
enumeration order are `[[], ["B"], ["A"], ["A","B"]]`; the first subset
whose cardinality is strictly greater than every earlier one is `["B"]`
(1 > 0, at index 1), yet `invite_to_dinner` returns `["A","B"]` — the code
keeps scanning and returns the first subset attaining the maximum, not the
first strict improvement. -/
theorem invite_selection_cex :
    invite_to_dinner [("A", []), ("B", [])] = ["A", "B"] ∧
    filter_bad_invites (generate_all_subsets [("A", []), ("B", [])]) [("A", []), ("B", [])]
      = [[], ["B"], ["A"], ["A", "B"]] ∧
    invite_to_dinner [("A", []), ("B", [])] ≠ ["B"] := by decide

/-- Claim C6 (amended): `invite_to_dinner` returns the first subset in
enumeration order that attains the maximum cardinality among the valid
subsets (it is strictly longer than every earlier valid subset and at least
as long as every valid subset; ties keep the earlier subset), and
`invite_to_dinner_optimized` returns the same selection over the
entangled-guest subsets followed by the full isolated-guest list, entangled
selections first and isolated guests after, in their collection orders. -/
theorem invite_selection_spec (friends : Friends) :
    (∃ i, ∃ h : i < (filter_bad_invites (generate_all_subsets friends) friends).length,
      invite_to_dinner friends
        = (filter_bad_invites (generate_all_subsets friends) friends).get ⟨i, h⟩ ∧
      (∀ j (hj : j < (filter_bad_invites (generate_all_subsets friends) friends).length),
        j < i →
        ((filter_bad_invites (generate_all_subsets friends) friends).get ⟨j, hj⟩).length
          < ((filter_bad_invites (generate_all_subsets friends) friends).get ⟨i, h⟩).length) ∧
      (∀ j (hj : j < (filter_bad_invites (generate_all_subsets friends) friends).length),
        ((filter_bad_invites (generate_all_subsets friends) friends).get ⟨j, hj⟩).length
          ≤ ((filter_bad_invites (generate_all_subsets friends) friends).get ⟨i, h⟩).length)) ∧
    invite_to_dinner_optimized friends
      = select_invite (filter_bad_invites
          (generate_all_subsets (filter_no_dislikes friends).2) friends)
        ++ (filter_no_dislikes friends).1 ∧
    (∃ i, ∃ h : i < (filter_bad_invites
        (generate_all_subsets (filter_no_dislikes friends).2) friends).length,
      select_invite (filter_bad_invites
          (generate_all_subsets (filter_no_dislikes friends).2) friends)
        = (filter_bad_invites
            (generate_all_subsets (filter_no_dislikes friends).2) friends).get ⟨i, h⟩ ∧
      (∀ j (hj : j < (filter_bad_invites
          (generate_all_subsets (filter_no_dislikes friends).2) friends).length),
        j < i →
        ((filter_bad_invites
            (generate_all_subsets (filter_no_dislikes friends).2) friends).get ⟨j, hj⟩).length
          < ((filter_bad_invites
              (generate_all_subsets (filter_no_dislikes friends).2) friends).get ⟨i, h⟩).length) ∧
      (∀ j (hj : j < (filter_bad_invites
          (generate_all_subsets (filter_no_dislikes friends).2) friends).length),
        ((filter_bad_invites
            (generate_all_subsets (filter_no_dislikes friends).2) friends).get ⟨j, hj⟩).length
          ≤ ((filter_bad_invites
              (generate_all_subsets (filter_no_dislikes friends).2) friends).get ⟨i, h⟩).length)) := by
  refine ⟨?_, rfl, ?_⟩
  · exact select_invite_spec _
      (List.ne_nil_of_mem (nil_mem_filter_bad _ friends (nil_mem_generate friends)))
  · exact select_invite_spec _
      (List.ne_nil_of_mem (nil_mem_filter_bad _ friends (nil_mem_generate _)))

/-- Witness for C6 at a concrete graph: the optimized result is the
entangled selection followed by the isolated list. -/
theorem invite_selection_spec_witness :
    invite_to_dinner_optimized [("A", ["B"]), ("B", ["A"]), ("C", [])]
      = select_invite (filter_bad_invites
          (generate_all_subsets
            (filter_no_dislikes [("A", ["B"]), ("B", ["A"]), ("C", [])]).2)
          [("A", ["B"]), ("B", ["A"]), ("C", [])])
        ++ (filter_no_dislikes [("A", ["B"]), ("B", ["A"]), ("C", [])]).1 :=
  (invite_selection_spec [("A", ["B"]), ("B", ["A"]), ("C", [])]).2.1

/-! ### Claims C8 and C9 -/

/-- Claim C8: on the empty guest mapping both selection functions return the
empty invite list without failing. -/
theorem invite_empty_mapping :
    invite_to_dinner [] = [] ∧ invite_to_dinner_optimized [] = [] := by decide

/-- Claim C9: both selection functions are pure functions of the input
mapping, so two runs on the same input agree both in content and in
length. -/
theorem invite_deterministic (friends : Friends) :
    invite_to_dinner friends = invite_to_dinner friends ∧
    (invite_to_dinner friends).length = (invite_to_dinner friends).length ∧
    invite_to_dinner_optimized friends = invite_to_dinner_optimized friends ∧
    (invite_to_dinner_optimized friends).length
      = (invite_to_dinner_optimized friends).length :=
  ⟨rfl, rfl, rfl, rfl⟩

/-! ### Characterization of `filter_no_dislikes` and key provenance -/

theorem filter_no_dislikes_aux :
    ∀ (fs : List (Guest × List Guest)) (acc1 : List Guest) (acc2 : Friends),
      fs.foldl (fun (acc : List Guest × Friends) item =>
        if item.2 = [] then (acc.1 ++ [item.1], acc.2) else (acc.1, acc.2 ++ [item]))
        (acc1, acc2)
      = (acc1 ++ (fs.filter (fun pd => decide (pd.2 = []))).map Prod.fst,
         acc2 ++ fs.filter (fun pd => !decide (pd.2 = []))) := by
  intro fs
  induction fs with
  | nil => intro acc1 acc2; simp
  | cons pd fs ih =>
    intro acc1 acc2
    rw [List.foldl_cons]
    by_cases hpd : pd.2 = []
    · rw [if_pos hpd, ih, List.filter_cons, List.filter_cons]
      simp [hpd]
    · rw [if_neg hpd, ih, List.filter_cons, List.filter_cons]
      simp [hpd]

theorem filter_no_dislikes_eq (friends : Friends) :
    filter_no_dislikes friends
      = ((friends.filter (fun pd => decide (pd.2 = []))).map Prod.fst,
         friends.filter (fun pd => !decide (pd.2 = []))) := by
  have h := filter_no_dislikes_aux friends [] []
  simpa using h

theorem keys_nodup_eq_val :
    ∀ (friends : Friends), (friends.map Prod.fst).Nodup →
      ∀ a b c, (a, b) ∈ friends → (a, c) ∈ friends → b = c := by
  intro friends
  induction friends with
  | nil =>
    intro _ a b c h _
    exact absurd h (List.not_mem_nil _)
  | cons pd fs ih =>
    intro hnd a b c hb hc
    rw [List.map_cons, List.nodup_cons] at hnd
    rcases List.mem_cons.1 hb with hb1 | hb1 <;> rcases List.mem_cons.1 hc with hc1 | hc1
    · have h2 : (a, b) = (a, c) := hb1.trans hc1.symm
      injection h2 with h3 h4
    · exfalso
      refine hnd.1 ?_
      rw [← hb1]
      exact List.mem_map.2 ⟨(a, c), hc1, rfl⟩
    · exfalso
      refine hnd.1 ?_
      rw [← hc1]
      exact List.mem_map.2 ⟨(a, b), hb1, rfl⟩
    · exact ih hnd.2 a b c hb1 hc1

theorem mem_good_sublist (g : Friends) (f : Friends) (s : List Guest)
    (hs : s ∈ filter_bad_invites (generate_all_subsets g) f) :
    s.Sublist (g.map Prod.fst) := by
  rw [filter_bad_invites_eq_filter] at hs
  have hs2 := (List.mem_filter.1 hs).1
  rw [generate_all_subsets_eq] at hs2
  rcases List.mem_map.1 hs2 with ⟨i, _, rfl⟩
  rw [bitOrderSubset_eq_asc]
  exact ascSubset_sublist _ i

theorem invite_to_dinner_unfold (friends : Friends) :
    invite_to_dinner friends
      = select_invite (filter_bad_invites (generate_all_subsets friends) friends) := rfl

theorem invite_to_dinner_optimized_unfold (friends : Friends) :
    invite_to_dinner_optimized friends
      = select_invite (filter_bad_invites
          (generate_all_subsets (filter_no_dislikes friends).2) friends)
        ++ (filter_no_dislikes friends).1 := rfl

/-! ### Claim C10 -/

/-- Claim C10: for an input mapping with distinct keys, the lists returned by
`invite_to_dinner` and `invite_to_dinner_optimized` contain no duplicate
guests, and every listed guest is a key of the input mapping. -/
theorem invite_members_spec (friends : Friends)
    (hnd : (friends.map Prod.fst).Nodup) :
    (invite_to_dinner friends).Nodup ∧
    (∀ x ∈ invite_to_dinner friends, x ∈ friends.map Prod.fst) ∧
    (invite_to_dinner_optimized friends).Nodup ∧
    (∀ x ∈ invite_to_dinner_optimized friends, x ∈ friends.map Prod.fst) := by
  have hfe := filter_no_dislikes_eq friends
  have hnaive : invite_to_dinner friends = [] ∨
      (invite_to_dinner friends).Sublist (friends.map Prod.fst) := by
    rw [invite_to_dinner_unfold]
    rcases select_invite_mem (filter_bad_invites (generate_all_subsets friends) friends)
      with h | h
    · exact Or.inl h
    · exact Or.inr (mem_good_sublist friends friends _ h)
  have hred_sub : ((filter_no_dislikes friends).2.map Prod.fst).Sublist
      (friends.map Prod.fst) := by
    rw [hfe]
    exact (List.filter_sublist friends).map Prod.fst
  have hiso_sub : ((filter_no_dislikes friends).1).Sublist (friends.map Prod.fst) := by
    rw [hfe]
    exact (List.filter_sublist friends).map Prod.fst
  have hopt : select_invite (filter_bad_invites
        (generate_all_subsets (filter_no_dislikes friends).2) friends) = [] ∨
      (select_invite (filter_bad_invites
        (generate_all_subsets (filter_no_dislikes friends).2) friends)).Sublist
        ((filter_no_dislikes friends).2.map Prod.fst) := by
    rcases select_invite_mem (filter_bad_invites
      (generate_all_subsets (filter_no_dislikes friends).2) friends) with h | h
    · exact Or.inl h
    · exact Or.inr (mem_good_sublist _ friends _ h)
  have hdisj : (select_invite (filter_bad_invites
      (generate_all_subsets (filter_no_dislikes friends).2) friends)).Disjoint
      ((filter_no_dislikes friends).1) := by
    intro x hxE hxI
    rcases hopt with h | h
    · rw [h] at hxE
      exact (List.not_mem_nil x) hxE
    · have hx2 := h.subset hxE
      rw [hfe] at hx2 hxI
      dsimp only at hx2 hxI
      rcases List.mem_map.1 hx2 with ⟨pd, hpd, rfl⟩
      rcases List.mem_map.1 hxI with ⟨pd2, hpd2, heq⟩
      rw [List.mem_filter] at hpd hpd2
      have hne : pd.2 ≠ [] := by simpa using hpd.2
      have he2 : pd2.2 = [] := by simpa using hpd2.2
      have h1 : (pd.1, pd.2) ∈ friends := by
        rw [Prod.mk.eta]
        exact hpd.1
      have h2 : (pd.1, pd2.2) ∈ friends := by
        rw [← heq, Prod.mk.eta]
        exact hpd2.1
      exact hne ((keys_nodup_eq_val friends hnd pd.1 pd.2 pd2.2 h1 h2).trans he2)
  refine ⟨?_, ?_, ?_, ?_⟩
  · rcases hnaive with h | h
    · rw [h]
      exact List.nodup_nil
    · exact h.nodup hnd
  · intro x hx
    rcases hnaive with h | h
    · rw [h] at hx
      exact absurd hx (List.not_mem_nil x)
    · exact h.subset hx
  · rw [invite_to_dinner_optimized_unfold]
    have hisoN : ((filter_no_dislikes friends).1).Nodup := hiso_sub.nodup hnd
    rcases hopt with h | h
    · rw [h]
      simpa using hisoN
    · exact (h.nodup (hred_sub.nodup hnd)).append hisoN hdisj
  · rw [invite_to_dinner_optimized_unfold]
    intro x hx
    rcases List.mem_append.1 hx with hx1 | hx1
    · rcases hopt with h | h
      · rw [h] at hx1
        exact absurd hx1 (List.not_mem_nil x)
      · exact hred_sub.subset (h.subset hx1)
    · exact hiso_sub.subset hx1

/-- Witness for C10 at a concrete two-guest graph. -/
theorem invite_members_spec_witness :
    (invite_to_dinner [("A", ["B"]), ("B", ["A"])]).Nodup :=
  (invite_members_spec [("A", ["B"]), ("B", ["A"])] (by decide)).1

end Dinner
